import Mathlib

/-!
Verification development for the OpenTransLive live server
(src/live_server/app/__init__.py, translator.py, scribe_manager.py).

Modelling conventions:
* Python float timestamps are modelled as `Int`: only ordering and equality
  of `start_time` values are observed by the verified properties.
* The per-session Redis keys (`transcription:{sid}:list`, `:meta`,
  `:partial`) and the Mongo document are gathered into `SessionState`; the
  legacy string-blob key used by the migration path is modelled as absent.
* Fallible external calls (Redis, Mongo, LLM HTTP) are modelled with
  `Except` / `Option` oracle inputs.
* `partial` is a Lean keyword; the source's field `partial` is rendered
  `isPart`, the partial head `partHead`, and the manager's partial task
  `partTask`.
-/

/-- `result` payload of a transcript segment: `corrected` text, language →
translation association list (insertion ordered like the Python dict), and
the `special_keywords` list. -/
structure TResult where
  corrected : String
  translated : List (String × String)
  special_keywords : List String
deriving DecidableEq, Repr

/-- A transcript segment as carried through `sync` / the Scribe callback:
`{"partial": bool, "start_time": float, "end_time": float, "result": {...}}`.
`result` is optional because the code reads it with `.get`. -/
structure Segment where
  isPart : Bool
  start_time : Int
  end_time : Int
  result : Option TResult
deriving DecidableEq, Repr

/-! ### Transcript normalization (scribe_manager.py, handle_transcript) -/

/-- The punctuation characters passed to `str.rstrip(",.。，")` in
`ScribeSessionManager.handle_transcript`. -/
def puncts : List Char := [',', '.', '。', '，']

/-- Python `str.strip()`: drop leading and trailing whitespace. -/
def pystrip (s : String) : String :=
  String.mk (((s.data.dropWhile Char.isWhitespace).reverse.dropWhile
    Char.isWhitespace).reverse)

/-- Python `transcript.rstrip(",.。，")`: remove every trailing character
belonging to `puncts`. -/
def rstripPuncts (s : String) : String :=
  String.mk ((s.data.reverse.dropWhile (fun c => decide (c ∈ puncts))).reverse)

/-- The normalization applied to an incoming transcript text in
`handle_transcript`: `data.get("text", "").strip()` followed by
`transcript.rstrip(",.。，")`. -/
def handle_transcript_normalize (raw : String) : String :=
  rstripPuncts (pystrip raw)

/-- Modelled from the spec's words, for comparison with the code: trim, then
strip at most ONE trailing character when it lies in `puncts`. -/
def specStripOneTrailing (raw : String) : String :=
  let t := pystrip raw
  match t.data.getLast? with
  | some c => if c ∈ puncts then String.mk t.data.dropLast else t
  | none => t

/-! ### ScribeSessionManager attribute model (scribe_manager.py)

`__init__` returns early when `ELEVENLABS_API_KEY` is empty, leaving most
attributes unset.  Attribute presence is modelled with `Option`: `none`
means the attribute was never assigned, so reading it raises
`AttributeError`.  Assignment (`self.x = v`) always succeeds and makes the
attribute present.  The attributes not read by the claims
(`seg_start_time`, timing fields, `task_group`, `partial_interval`) are
summarised by `has_timing_attrs`. -/

inductive PyErr where
  | attributeError
deriving DecidableEq, Repr

structure ScribeState where
  session_id : String
  api_key : String
  has_callback : Bool
  ws : Option (Option Unit)   -- outer: attribute present?  inner: `None` vs a live socket
  is_running : Option Bool
  ws_url : Option String
  audio_queue : Option (List String)
  has_timing_attrs : Bool
deriving DecidableEq, Repr

/-- `ScribeSessionManager.__init__`: sets `session_id` and `api_key`, then
`if not self.api_key: return` — on an empty key every later attribute
(`callback`, `ws`, `is_running`, `ws_url`, `audio_queue`, timing fields)
is left unset. -/
def scribe_init (sid key : String) : ScribeState :=
  if key = "" then
    { session_id := sid, api_key := key, has_callback := false, ws := none,
      is_running := none, ws_url := none, audio_queue := none,
      has_timing_attrs := false }
  else
    { session_id := sid, api_key := key, has_callback := true, ws := some none,
      is_running := some false,
      ws_url := some ("wss://api.elevenlabs.io/v1/speech-to-text/realtime"),
      audio_queue := some [], has_timing_attrs := true }

/-- `push_audio`: `if self.is_running: await self.audio_queue.put(...)`.
Reading a missing attribute raises `AttributeError`. -/
def scribe_push_audio (st : ScribeState) (chunk : String) :
    Except PyErr ScribeState :=
  match st.is_running with
  | none => .error .attributeError
  | some r =>
    if r then
      match st.audio_queue with
      | none => .error .attributeError
      | some q => .ok { st with audio_queue := some (q ++ [chunk]) }
    else .ok st

/-- `stop`: assigns `self.is_running = False` (assignment never raises),
then reads `self.ws` — `AttributeError` when it was never set — closes it
when truthy, and assigns `self.ws = None`. -/
def scribe_stop (st : ScribeState) : Except PyErr ScribeState :=
  let st₁ := { st with is_running := some false }
  match st₁.ws with
  | none => .error .attributeError
  | some _ => .ok { st₁ with ws := some none }

/-- `start`: assigns `self.is_running = True`, then inside
`try/except/finally` requests a token (`token` oracle; `get_token` returns
`None` on any HTTP failure, as with an empty API key); on success it builds
the URL, reading `self.ws_url` (`AttributeError` when never set), and runs
the WebSocket session (`sessionBody`, external I/O).  Both `except` arms
only log, and `finally` assigns `self.is_running = False`, `self.ws = None`,
so `start` itself never propagates an exception. -/
def scribe_start (st : ScribeState) (token : Option String)
    (sessionBody : ScribeState → Except PyErr ScribeState) :
    Except PyErr ScribeState :=
  let st₁ := { st with is_running := some true }
  let body : Except PyErr ScribeState :=
    match token with
    | none => .ok st₁                      -- "Failed to get Scribe token"; return
    | some _ =>
      match st₁.ws_url with
      | none => .error .attributeError     -- f-string reads the missing ws_url
      | some _ => sessionBody st₁
  let st₂ := match body with
    | .ok s => s
    | .error _ => st₁                      -- except: logged, swallowed
  .ok { st₂ with is_running := some false, ws := some none }

/-! ### Transcript store (live_server/app/__init__.py)

The per-session Redis keys and Mongo document.  `meta` is
`Option (Option Int)`: the outer layer models key presence, the inner the
(possibly null) `stream_start_time` value stored in the meta JSON. -/

/-- The Mongo `transcription_store` document body for one session (also the
shape of the legacy Redis string blob). -/
structure MongoDoc where
  transcriptions : List Segment
  stream_start_time : Option Int
deriving DecidableEq, Repr

/-- Per-session state: Redis `transcription:{sid}:list` ordered set (kept
ascending by `start_time`), `:meta`, `:partial`, and the Mongo document. -/
structure SessionState where
  list : List Segment
  meta : Option (Option Int)
  partHead : Option Segment
  storeDoc : Option MongoDoc
deriving DecidableEq, Repr

/-- The transcript view assembled by `get_cached_transcription`:
`{"transcriptions": [...], "stream_start_time": ..., "partial": ...}`.
An absent dict key and a null value are both `none`. -/
structure TView where
  transcriptions : List Segment
  stream_start_time : Option Int
  partHead : Option Segment
deriving DecidableEq, Repr

/-- The results of the individual awaited Redis/Mongo reads performed by
`get_cached_transcription`; each may raise (`.error`). -/
structure RedisConn where
  zrangeAll : Except String (List Segment)            -- zrange list 0 -1
  getMeta : Except String (Option (Option Int))       -- get meta
  getPart : Except String (Option Segment)            -- get partial
  getLegacy : Except String (Option MongoDoc)         -- get legacy string key
  findStore : Except String (Option MongoDoc)         -- Mongo find_one

/-- The `try:` body of `get_cached_transcription`: read the committed ZSET,
meta and partial; fall back to the legacy blob, then to Mongo; finally merge
the partial head.  (The background `migrate_to_zset` task only backfills the
cache and is not part of the returned view.) -/
def get_cached_attempt (c : RedisConn) : Except String TView := do
  let committed ← c.zrangeAll
  let metaVal ← c.getMeta
  let partVal ← c.getPart
  let data₀ : Option TView :=
    if committed.isEmpty then none
    else some { transcriptions := committed,
                stream_start_time := match metaVal with
                  | some m => m
                  | none => none,
                partHead := none }
  let data₁ ← match data₀ with
    | some d => pure (some d)
    | none => do
        let old ← c.getLegacy
        pure (old.map (fun l =>
          ({ transcriptions := l.transcriptions,
             stream_start_time := l.stream_start_time,
             partHead := none } : TView)))
  let data₂ ← match data₁ with
    | some d => pure d
    | none => do
        let store ← c.findStore
        match store with
        | some doc => pure { transcriptions := doc.transcriptions,
                             stream_start_time := doc.stream_start_time,
                             partHead := none }
        | none => pure { transcriptions := [], stream_start_time := none,
                         partHead := none }
  pure (match partVal with
        | some p => { data₂ with partHead := some p }
        | none => data₂)

/-- `get_cached_transcription`: the whole body is wrapped in
`try ... except Exception` returning `{"transcriptions": []}` on any error
(the error is logged, never re-raised). -/
def get_cached_transcription (c : RedisConn) : TView :=
  match get_cached_attempt c with
  | .ok v => v
  | .error _ => { transcriptions := [], stream_start_time := none,
                  partHead := none }

/-- A connection whose every operation succeeds against `st` (the modelled
states carry no legacy blob key). -/
def connOfState (st : SessionState) : RedisConn :=
  { zrangeAll := .ok st.list, getMeta := .ok st.meta, getPart := .ok st.partHead,
    getLegacy := .ok none, findStore := .ok st.storeDoc }

/-- The transcript view of a session state when Redis and Mongo are up. -/
def buildView (st : SessionState) : TView :=
  get_cached_transcription (connOfState st)

/-- Insert a segment into the committed list keeping it ascending by
`start_time`; among distinct members with equal score the placement stands
for Redis's member order, which no verified property observes. -/
def zinsert (s : Segment) : List Segment → List Segment
  | [] => [s]
  | x :: xs => if s.start_time < x.start_time then s :: x :: xs
               else x :: zinsert s xs

/-- Redis `ZADD key {json.dumps(seg): seg["start_time"]}`: a member already
present only has its score updated — and the score always equals the
member's own `start_time` here, so nothing changes; a new member is inserted
at its score. -/
def zadd (l : List Segment) (s : Segment) : List Segment :=
  if s ∈ l then l else zinsert s l

/-- Python truthiness of an optional float (`None`, `0.0` are falsy). -/
def pyTruthy : Option Int → Bool
  | none => false
  | some v => v != 0

/-- Python `a or b` on optional floats. -/
def pyOr (a b : Option Int) : Option Int :=
  if pyTruthy a then a else b

/-- `save_segment_background`: Mongo `update_one({"sid": sid},
{"$push": {"transcriptions": segment}, "$set": {stream_start_time, ...}},
upsert=True)` — `$push` appends unconditionally. -/
def save_segment_background (doc : Option MongoDoc) (s : Segment)
    (sst : Option Int) : MongoDoc :=
  match doc with
  | some d => { transcriptions := d.transcriptions ++ [s],
                stream_start_time := sst }
  | none => { transcriptions := [s], stream_start_time := sst }

/-- `_process_transcription_update` restricted to its state effects.
`yt` is the YouTube start-time oracle.  A partial older than the last
committed segment (`zrange -1 -1`) is dropped with an early `return`;
otherwise the partial key is set.  A committed segment is added to the ZSET,
the meta key is upserted, the partial key deleted — one pipelined atomic
step — and the Mongo `$push` upsert is scheduled (modelled as applied).
The subsequent broadcast writes no state. -/
def process_transcription_update (st : SessionState) (s : Segment)
    (yt : Option Int) : SessionState :=
  let cached := buildView st
  let lastCommitted := st.list.getLast?
  if s.isPart then
    match lastCommitted with
    | some c => if s.start_time < c.start_time then st
                else { st with partHead := some s }
    | none => { st with partHead := some s }
  else
    let metaVal := pyOr yt cached.stream_start_time
    { st with
        list := zadd st.list s
        meta := some metaVal
        partHead := none
        storeDoc := some (save_segment_background st.storeDoc s metaVal) }

/-! ### Translation pipeline (live_server/app/translator.py)

External LLM calls are abstracted by per-call oracles giving the HTTP
response (or `none` for a raised/`None` response, the two cases the code
treats identically).  The prompt strings — keyword list, the last-3-segment
context windows, the tag-wrapped text — only shape the request body sent to
the oracle, so they are not recomputed here.  The `<prev_translation>` hint
of `_translation_worker` is guarded by `cached_data.get("partial") is True`;
`get_cached_transcription` stores a segment dict (never the literal `True`)
under that key, so the guard is always false and the hint is never added. -/

/-- An OpenAI chat-completions HTTP response as observed by the code. -/
structure LLMResponse where
  status : Nat
  content : String
deriving DecidableEq, Repr

/-- The keyword-extraction worker's response: HTTP status and the result of
`json.loads(content).get("special_keywords", [])` (`none` = the decode
raised, which the worker catches). -/
structure KwResp where
  status : Nat
  parsed : Option (List String)
deriving DecidableEq, Repr

/-- The Redis keys touched around the pipeline: the transcript keys and the
per-session `keywords:{sid}` list. -/
structure RedisKV where
  transcripts : SessionState
  keywords : Option (List String)
deriving DecidableEq, Repr

/-- The configuration values read by `translate_transcription`
(`AI_MODEL` only names the model inside the request body). -/
structure TransConfig where
  openai_api_key : String
  translate_languages : String
  common_prompt : String
deriving DecidableEq, Repr

/-- Python `s.split(',')`: cut at every comma (structural helper; `acc`
holds the reversed current piece). -/
def splitCommaAux : List Char → List Char → List String
  | [], acc => [String.mk acc.reverse]
  | c :: cs, acc =>
    if c = ',' then String.mk acc.reverse :: splitCommaAux cs []
    else splitCommaAux cs (c :: acc)

/-- `[x.strip() for x in s.split(',') if x.strip()]`. -/
def splitCommaTrim (s : String) : List String :=
  ((splitCommaAux s.data []).map pystrip).filter (fun x => x ≠ "")

/-- `get_current_keywords`: the stored JSON list when the key holds one
(Redis errors fall through to the same default as a missing key), else the
keywords seeded from `COMMON_PROMPT`. -/
def get_current_keywords (kv : RedisKV) (cfg : TransConfig) : List String :=
  match kv.keywords with
  | some ks => ks
  | none => splitCommaTrim cfg.common_prompt

/-- `.replace(openTag, '').replace(closeTag, '').strip()` applied to a
response body. -/
def stripTagPair (openTag closeTag s : String) : String :=
  pystrip ((s.replace openTag ("")).replace closeTag (""))

/-- `_translation_worker` for one language: on a 200 response use the
stripped content, otherwise (non-200, `None`, or a raised error) fall back
to the corrected text. -/
def translation_worker (corrected : String)
    (transOracle : String → Option LLMResponse) (lang : String) : String :=
  match transOracle lang with
  | some r => if r.status = 200
              then stripTagPair ("<translate_this>") ("</translate_this>") r.content
              else corrected
  | none => corrected

/-- The keyword-merge loop over the extracted `special_keywords`:
append-if-absent onto `current_keywords` and record whether anything was
added (the `isinstance(keyword, str)` guard always holds here since the
parsed list is modelled as strings). -/
def merge_keywords (cur : List String) (ks : List String) :
    List String × Bool :=
  ks.foldl (fun acc k => if k ∈ acc.1 then acc else (acc.1 ++ [k], true))
    (cur, false)

/-- What `translate_transcription` leaves behind: the caller's segment
object after the call (the function assigns `data["result"] = result` and
returns `data`, so it coincides with the returned value), the returned
segment, and the Redis state. -/
structure TranslateOutcome where
  dataAfter : Segment
  returned : Segment
  kv : RedisKV
deriving DecidableEq, Repr

/-- `translate_transcription(session_id, data, cached_data, redis_client,
skip_correction)`.  Early exits: missing API key, empty language list,
empty corrected text — each returns `data` untouched.  Otherwise: the
correction stage (skipped or oracle-driven with fallback to the raw text),
one translation worker per language, the keyword worker for committed
segments only, the keyword append-if-absent merge saved back to Redis when
something new was added, and finally `data["result"] = result; return data`. -/
def translate_transcription (cfg : TransConfig) (data : Segment)
    (_cached : TView) (kv : RedisKV) (skip_correction : Bool)
    (corrOracle : Option LLMResponse)
    (transOracle : String → Option LLMResponse)
    (kwOracle : Option KwResp) : TranslateOutcome :=
  let languages := splitCommaTrim cfg.translate_languages
  if cfg.openai_api_key = "" then ⟨data, data, kv⟩
  else if languages = [] then ⟨data, data, kv⟩
  else
    let isPartSeg := data.isPart
    let text := match data.result with
      | some r => r.corrected
      | none => ""
    if text = "" then ⟨data, data, kv⟩
    else
      let current_keywords := get_current_keywords kv cfg
      let corrected :=
        if skip_correction then text
        else match corrOracle with
          | some r => if r.status = 200
                      then stripTagPair ("<correct_this>") ("</correct_this>") r.content
                      else text
          | none => text
      let translated := languages.map
        (fun lang => (lang, translation_worker corrected transOracle lang))
      let special : List String :=
        if isPartSeg then []
        else match kwOracle with
          | some r => if r.status = 200 then r.parsed.getD [] else []
          | none => []
      let kv' :=
        if isPartSeg then kv
        else
          let merged := merge_keywords current_keywords special
          if merged.2 then { kv with keywords := some merged.1 } else kv
      let res : TResult :=
        { corrected := corrected, translated := translated,
          special_keywords := special }
      let ret := { data with result := some res }
      ⟨ret, ret, kv'⟩

/-! ### TranslationQueueManager.put (translator.py)

Task handles are modelled by identifiers into a registry of every partial
task ever spawned, each carrying a `done` flag (the coroutine finished —
`task.done()`) and a `cancelRequested` flag (`task.cancel()` was called; the
cancelled coroutine finishes at its next suspension point, which the
environment step `finishTask` models).  `put` is the source method; between
calls the scheduler may complete any task. -/

structure PTask where
  tid : Nat
  done : Bool
  cancelRequested : Bool
deriving DecidableEq, Repr

/-- An item handed to `put`: `(session_id, sync_data, cached_data,
redis_client)`; only the session and segment are observed by the claims. -/
structure TQItem where
  sessionId : String
  seg : Segment
deriving DecidableEq, Repr

structure TQMState where
  partTask : Option Nat
  tasks : List PTask
  commit_queue : List TQItem
  nextId : Nat
deriving DecidableEq, Repr

/-- `TranslationQueueManager.__init__`: no partial task, empty queue. -/
def TQMinit : TQMState := ⟨none, [], [], 0⟩

/-- `self.partial_task.done()` for the registry entry `tid` (a tracked id is
always registered in reachable states; an unregistered id reads as done). -/
def taskDone (st : TQMState) (tid : Nat) : Bool :=
  match st.tasks.find? (fun t => t.tid == tid) with
  | some t => t.done
  | none => true

/-- `self.partial_task.cancel()`: request cancellation of task `tid`. -/
def cancelTask (st : TQMState) (tid : Nat) : TQMState :=
  { st with tasks :=
      st.tasks.map (fun t =>
        if t.tid == tid then { t with cancelRequested := true } else t) }

/-- The scheduler completes task `tid` (normal return, or the cancelled
coroutine finishing its CancelledError handler). -/
def finishTask (st : TQMState) (tid : Nat) : TQMState :=
  { st with tasks :=
      st.tasks.map (fun t =>
        if t.tid == tid then { t with done := true } else t) }

/-- The cancel phase of `put`: `if self.partial_task and not
self.partial_task.done(): self.partial_task.cancel()`. -/
def putCancelStage (st : TQMState) : TQMState :=
  match st.partTask with
  | some tid => if taskDone st tid then st else cancelTask st tid
  | none => st

/-- `TranslationQueueManager.put`: if a tracked partial task exists and is
not done, cancel it; then a partial item spawns a fresh partial task (never
enqueued) while a committed item is appended to the FIFO `commit_queue`. -/
def tqm_put (st : TQMState) (item : TQItem) : TQMState :=
  let st₁ := putCancelStage st
  if item.seg.isPart then
    { st₁ with partTask := some st₁.nextId,
               tasks := st₁.tasks ++ [⟨st₁.nextId, false, false⟩],
               nextId := st₁.nextId + 1 }
  else
    { st₁ with commit_queue := st₁.commit_queue ++ [item] }

/-- Manager states reachable from a fresh manager by `put` calls and
scheduler task completions. -/
inductive TQMReach : TQMState → Prop
  | init : TQMReach TQMinit
  | put (st : TQMState) (item : TQItem) : TQMReach st → TQMReach (tqm_put st item)
  | finish (st : TQMState) (tid : Nat) : TQMReach st → TQMReach (finishTask st tid)

/-- A live partial task: spawned, not finished, not cancel-requested. -/
def liveTask (t : PTask) : Bool := !t.done && !t.cancelRequested

/-- Number of live partial tasks. -/
def liveCount (st : TQMState) : Nat := (st.tasks.filter liveTask).length

/-! ### Commit-lane driver and completion callbacks (translator.py `_loop`,
`_process`; __init__.py `_process_transcription_update`)

`_loop` awaits `self.commit_queue.get()` and then awaits
`self._process(*item)`, so translations of committed items are strictly
serialized in FIFO order; but `_process` hands the result to the completion
callback via `asyncio.create_task(self.callback(...))` WITHOUT awaiting it.
Each spawned callback later appends the segment to the transcript store and
then publishes it to the room, suspending at its own await points, so
callbacks of successive items may interleave.  Items are named by their
enqueue index. -/

structure DriverState where
  queue : List Nat                 -- committed items still in the FIFO queue
  inFlight : Option Nat            -- item currently being translated by _loop
  spawnedCb : List Nat             -- callback spawn order = driver exit order
  cbPending : List (Nat × Bool)    -- live callback tasks (id, appended yet?)
  appended : List Nat              -- transcript-store append order
  published : List Nat             -- room publish order
deriving DecidableEq, Repr

/-- A fresh driver with the items enqueued by `put`, in enqueue order. -/
def driverInit (items : List Nat) : DriverState :=
  ⟨items, none, [], [], [], []⟩

/-- One scheduler step of the commit lane. -/
inductive DriverStep : DriverState → DriverState → Prop
  /-- `_loop` pops the queue head; it holds at most one item at a time
  (`await self._process(...)` precedes the next `get`). -/
  | pop (s : DriverState) (i : Nat) (q : List Nat) :
      s.queue = i :: q → s.inFlight = none →
      DriverStep s { s with queue := q, inFlight := some i }
  /-- `await translate_transcription` returns and `_process` spawns the
  completion callback task, then `_loop` may take the next item. -/
  | translated (s : DriverState) (i : Nat) :
      s.inFlight = some i →
      DriverStep s { s with inFlight := none,
                            spawnedCb := s.spawnedCb ++ [i],
                            cbPending := s.cbPending ++ [(i, false)] }
  /-- A pending callback performs its transcript-store append (the atomic
  Redis pipeline of `_process_transcription_update`). -/
  | cbAppend (s : DriverState) (i : Nat) (pre post : List (Nat × Bool)) :
      s.cbPending = pre ++ (i, false) :: post →
      DriverStep s { s with cbPending := pre ++ (i, true) :: post,
                            appended := s.appended ++ [i] }
  /-- A pending callback that has appended publishes to the room and ends. -/
  | cbPublish (s : DriverState) (i : Nat) (pre post : List (Nat × Bool)) :
      s.cbPending = pre ++ (i, true) :: post →
      DriverStep s { s with cbPending := pre ++ post,
                            published := s.published ++ [i] }

/-- Reachability of the commit lane under arbitrary interleaving. -/
def DriverReach : DriverState → DriverState → Prop :=
  Relation.ReflTransGen DriverStep

/-- Invariant of the commit lane: callbacks are spawned in enqueue order
(with at most one item in translation, held in `inFlight`), a callback that
has flipped its flag has appended, and nothing is published before it was
appended. -/
def DriverInv (q : List Nat) (s : DriverState) : Prop :=
  s.spawnedCb ++ s.inFlight.toList ++ s.queue = q
  ∧ (∀ ib ∈ s.cbPending, ib.2 = true → ib.1 ∈ s.appended)
  ∧ (∀ i ∈ s.published, i ∈ s.appended)

/-- Invariant of the queue manager: registered task ids are fresh-bounded
and distinct, and every live task is the tracked one. -/
def TQMInv (st : TQMState) : Prop :=
  (∀ t ∈ st.tasks, t.tid < st.nextId)
  ∧ st.tasks.Pairwise (fun a b => a.tid ≠ b.tid)
  ∧ (∀ t ∈ st.tasks, t.done = false → t.cancelRequested = false →
      st.partTask = some t.tid)

/-! ### Concrete fixtures used by witnesses and counterexamples -/

def emptySession : SessionState := ⟨[], none, none, none⟩
def seg5hello : Segment := ⟨false, 5, 6, some ⟨"hello", [], []⟩⟩
def seg5hey : Segment := ⟨false, 5, 7, some ⟨"hey", [], []⟩⟩
def seg10 : Segment := ⟨false, 10, 11, some ⟨"x", [], []⟩⟩
def segPart9 : Segment := ⟨true, 9, 12, some ⟨"y", [], []⟩⟩
def segPart12 : Segment := ⟨true, 12, 13, some ⟨"z", [], []⟩⟩
def segPart7 : Segment := ⟨true, 7, 8, some ⟨"he", [], []⟩⟩

/-! ## Theorems -/

/-- Claim C9, counterexample: on the input "abc,," the code's normalization
(`.strip()` then `.rstrip(",.。，")`) removes BOTH trailing commas, while the
claim permits at most one trailing character to be removed. -/
theorem c9_counterexample :
    handle_transcript_normalize ("abc,,") = "abc"
    ∧ specStripOneTrailing ("abc,,") = "abc,"
    ∧ ("abc" : String) ≠ "abc," := by
  refine ⟨by decide, by decide, by decide⟩

/-- Claim C9 (amended): normalization first trims the text, then strips ALL
trailing characters belonging to `{, . 。 ，}` — the stripped text is the
trimmed text minus its maximal punctuation suffix, the dropped characters
all lie in the set, and the result never ends in one of them. -/
theorem c9_normalize_strips_trailing_puncts (raw : String) :
    ((handle_transcript_normalize raw).data ++
        ((pystrip raw).data.reverse.takeWhile (fun c => decide (c ∈ puncts))).reverse
      = (pystrip raw).data)
    ∧ (∀ c ∈ (pystrip raw).data.reverse.takeWhile (fun c => decide (c ∈ puncts)),
        c ∈ puncts)
    ∧ (∀ c, (handle_transcript_normalize raw).data.getLast? = some c →
        c ∉ puncts) := by
  refine ⟨?_, ?_, ?_⟩
  · show ((pystrip raw).data.reverse.dropWhile _).reverse ++ _ = _
    rw [← List.reverse_append, List.takeWhile_append_dropWhile,
      List.reverse_reverse]
  · intro c hc
    exact of_decide_eq_true
      (List.mem_takeWhile_imp (p := fun x => decide (x ∈ puncts)) hc)
  · intro c hc
    have h1 : (((pystrip raw).data.reverse.dropWhile
        (fun c => decide (c ∈ puncts))).reverse).getLast? = some c := hc
    rw [List.getLast?_reverse] at h1
    have h2 := List.head?_dropWhile_not (fun c => decide (c ∈ puncts))
      (pystrip raw).data.reverse
    rw [h1] at h2
    simpa using h2

/-- Claim C9, witness for the amended theorem at the input "ab,.". -/
theorem c9_witness : 'b' ∉ puncts :=
  (c9_normalize_strips_trailing_puncts ("ab,.")).2.2 'b' (by decide)

/-- Claim C10, counterexample: on the instance built with an empty
`ELEVENLABS_API_KEY`, `start` does NOT raise `AttributeError` — it assigns
`is_running` itself, the failing token request makes it log and return, and
its `except`/`finally` arms absorb every internal error. -/
theorem c10_counterexample :
    scribe_start (scribe_init ("s1") ("")) none (fun s => .ok s)
        = .ok { scribe_init ("s1") ("") with is_running := some false, ws := some none }
    ∧ scribe_start (scribe_init ("s1") ("")) none (fun s => .ok s)
        ≠ .error .attributeError := by
  exact ⟨rfl, fun h => Except.noConfusion h⟩

/-- Claim C10 (amended): constructing with an empty `ELEVENLABS_API_KEY`
returns early, leaving `callback`, `is_running`, `audio_queue` and `ws`
unset, so `push_audio` and `stop` on the fresh instance raise
`AttributeError`; `start`, however, never raises — it assigns `is_running`
itself and, whatever the token oracle and WebSocket session do, its
`except`/`finally` arms swallow the error and it returns normally. -/
theorem c10_missing_key_attribute_errors (sid chunk : String)
    (token : Option String)
    (body : ScribeState → Except PyErr ScribeState) :
    (scribe_init sid ("")).has_callback = false
    ∧ (scribe_init sid ("")).is_running = none
    ∧ (scribe_init sid ("")).audio_queue = none
    ∧ (scribe_init sid ("")).ws = none
    ∧ scribe_push_audio (scribe_init sid ("")) chunk = .error .attributeError
    ∧ scribe_stop (scribe_init sid ("")) = .error .attributeError
    ∧ scribe_start (scribe_init sid ("")) token body
        = .ok { scribe_init sid ("") with is_running := some false, ws := some none } := by
  refine ⟨rfl, rfl, rfl, rfl, rfl, rfl, ?_⟩
  cases token with
  | none => rfl
  | some t => rfl

/-- The view assembled by a successful `get_cached_transcription` always
carries the session's partial head: the partial key is read up front and
merged into whichever committed source was used. -/
theorem buildView_partHead (st : SessionState) :
    (buildView st).partHead = st.partHead := by
  obtain ⟨l, m, ph, sd⟩ := st
  cases l <;> cases sd <;> cases ph <;> rfl

/-- Claim C1: a partial update older than the last committed segment is a
no-op on the whole session state; otherwise (no committed segment, or
`start_time` at least the last committed one) only the partial key is
written and a subsequent get returns the new partial head. -/
theorem c1_stale_partial_rejected (st : SessionState) (p : Segment)
    (yt : Option Int) (hp : p.isPart = true) :
    (∀ c, st.list.getLast? = some c → p.start_time < c.start_time →
        process_transcription_update st p yt = st)
    ∧ ((∀ c, st.list.getLast? = some c → c.start_time ≤ p.start_time) →
        process_transcription_update st p yt = { st with partHead := some p }
        ∧ (buildView (process_transcription_update st p yt)).partHead
            = some p) := by
  constructor
  · intro c hc hlt
    unfold process_transcription_update
    rw [hp]
    simp only [if_true]
    rw [hc]
    simp [hlt]
  · intro hle
    have hmain : process_transcription_update st p yt
        = { st with partHead := some p } := by
      unfold process_transcription_update
      rw [hp]
      simp only [if_true]
      cases hc : st.list.getLast? with
      | none => simp
      | some c =>
        have := hle c hc
        simp [not_lt.mpr this]
    refine ⟨hmain, ?_⟩
    rw [hmain, buildView_partHead]

/-- Claim C1, witness: with a committed segment at time 10, a partial at
time 9 is dropped and a partial at time 12 becomes the partial head. -/
theorem c1_witness :
    process_transcription_update ⟨[seg10], none, none, none⟩ segPart9 none
        = ⟨[seg10], none, none, none⟩
    ∧ (buildView (process_transcription_update ⟨[seg10], none, none, none⟩
        segPart12 none)).partHead = some segPart12 := by
  constructor
  · exact (c1_stale_partial_rejected ⟨[seg10], none, none, none⟩ segPart9 none
      (by decide)).1 seg10 (by decide) (by decide)
  · refine ((c1_stale_partial_rejected ⟨[seg10], none, none, none⟩ segPart12 none
      (by decide)).2 ?_).2
    intro c hc
    have hc' : c = seg10 := by
      have : (([seg10] : List Segment).getLast?) = some seg10 := rfl
      rw [this] at hc
      exact (Option.some.inj hc).symm
    rw [hc']
    decide

/-- Claim C4: appending a committed segment clears the partial head in the
same atomic pipeline step, and a subsequent get reports no partial. -/
theorem c4_committed_clears_partial (st : SessionState) (s : Segment)
    (yt : Option Int) (h : s.isPart = false) :
    (process_transcription_update st s yt).partHead = none
    ∧ (buildView (process_transcription_update st s yt)).partHead = none := by
  have h1 : (process_transcription_update st s yt).partHead = none := by
    unfold process_transcription_update
    rw [h]
    simp
  exact ⟨h1, by rw [buildView_partHead]; exact h1⟩

/-- Claim C4, witness: committing `seg10` over a pending partial head. -/
theorem c4_witness :
    (process_transcription_update ⟨[], none, some segPart9, none⟩ seg10
        none).partHead = none
    ∧ (buildView (process_transcription_update ⟨[], none, some segPart9, none⟩
        seg10 none)).partHead = none :=
  c4_committed_clears_partial ⟨[], none, some segPart9, none⟩ seg10 none rfl

/-- The inserted member belongs to the resulting ordered set. -/
theorem mem_zinsert_self (s : Segment) (l : List Segment) :
    s ∈ zinsert s l := by
  induction l with
  | nil => simp [zinsert]
  | cons x xs ih =>
    unfold zinsert
    split
    · exact List.mem_cons_self s (x :: xs)
    · exact List.mem_cons_of_mem x ih

/-- `ZADD` leaves the member present. -/
theorem mem_zadd_self (l : List Segment) (s : Segment) : s ∈ zadd l s := by
  unfold zadd
  split
  · assumption
  · exact mem_zinsert_self s l

/-- Re-adding an identical member to the ordered set is a no-op. -/
theorem zadd_idem (l : List Segment) (s : Segment) :
    zadd (zadd l s) s = zadd l s := by
  have h := mem_zadd_self l s
  generalize hm : zadd l s = L at h ⊢
  unfold zadd
  rw [if_pos h]

/-- Claim C5, counterexample: after committing `seg5hello` once (durable
store holds 1 segment), committing the identical segment again grows the
durable store to 2 segments (Mongo `$push` never dedupes), and committing
`seg5hey` — same `start_time`, different text — leaves BOTH members in the
cache ordered set instead of replacing the earlier one. -/
theorem c5_counterexample :
    ((process_transcription_update emptySession seg5hello none).storeDoc.map
        (fun d => d.transcriptions.length) = some 1)
    ∧ ((process_transcription_update
          (process_transcription_update emptySession seg5hello none)
          seg5hello none).storeDoc.map
        (fun d => d.transcriptions.length) = some 2)
    ∧ ((2 : Nat) ≠ 1)
    ∧ ((process_transcription_update
          (process_transcription_update emptySession seg5hello none)
          seg5hey none).list = [seg5hello, seg5hey]) := by
  refine ⟨by decide, by decide, by decide, by decide⟩

/-- Claim C5 (amended): the cache dedupes committed segments by the full
serialized member, not by `start_time` — re-appending the identical segment
leaves the cache ordered set unchanged, while the durable store appends
unconditionally on every committed update (`$push`). -/
theorem c5_cache_dedupes_store_appends (st : SessionState) (s : Segment)
    (yt yt' : Option Int) (h : s.isPart = false) :
    ((process_transcription_update (process_transcription_update st s yt) s
        yt').list = (process_transcription_update st s yt).list)
    ∧ ((process_transcription_update st s yt).storeDoc.map
          (fun d => d.transcriptions)
        = some ((match st.storeDoc with
            | some d => d.transcriptions
            | none => []) ++ [s])) := by
  constructor
  · unfold process_transcription_update
    rw [h]
    simp [zadd_idem]
  · unfold process_transcription_update
    rw [h]
    simp only [Bool.false_eq_true, if_false, Option.map_some]
    unfold save_segment_background
    cases st.storeDoc <;> simp

/-- Claim C5, witness for the amended theorem at `seg5hello` over an empty
session. -/
theorem c5_witness :
    ((process_transcription_update
        (process_transcription_update emptySession seg5hello none)
        seg5hello none).list
      = (process_transcription_update emptySession seg5hello none).list)
    ∧ ((process_transcription_update emptySession seg5hello none).storeDoc.map
          (fun d => d.transcriptions)
        = some ((match emptySession.storeDoc with
            | some d => d.transcriptions
            | none => []) ++ [seg5hello])) :=
  c5_cache_dedupes_store_appends emptySession seg5hello none none rfl

/-- Claim C8: `get_cached_transcription` never propagates an error — its
result type is total — and whenever the resolution raises (here: the very
first cache read fails, regardless of the remaining operations; or the
cache is empty and the durable-store lookup fails) it returns the empty
transcript view `{"transcriptions": []}`. -/
theorem c8_get_falls_back_to_empty (e e' : String)
    (m : Except String (Option (Option Int)))
    (p : Except String (Option Segment))
    (lg fs : Except String (Option MongoDoc)) :
    get_cached_transcription ⟨.error e, m, p, lg, fs⟩ = ⟨[], none, none⟩
    ∧ get_cached_transcription ⟨.ok [], .ok none, .ok none, .ok none, .error e'⟩
        = ⟨[], none, none⟩ :=
  ⟨rfl, rfl⟩

/-- Case analysis on `translate_transcription`: either an early return
leaves everything untouched, or the result is the input segment with a
fresh `result` and a Redis state whose transcript keys are unchanged. -/
theorem translate_cases (cfg : TransConfig) (data : Segment) (cached : TView)
    (kv : RedisKV) (sk : Bool) (corrO : Option LLMResponse)
    (transO : String → Option LLMResponse) (kwO : Option KwResp) :
    (translate_transcription cfg data cached kv sk corrO transO kwO
        = ⟨data, data, kv⟩)
    ∨ ∃ res kv2, translate_transcription cfg data cached kv sk corrO transO kwO
          = ⟨{ data with result := some res }, { data with result := some res },
             kv2⟩
        ∧ kv2.transcripts = kv.transcripts := by
  simp only [translate_transcription]
  by_cases h1 : cfg.openai_api_key = ""
  · rw [if_pos h1]
    exact Or.inl rfl
  rw [if_neg h1]
  by_cases h2 : splitCommaTrim cfg.translate_languages = []
  · rw [if_pos h2]
    exact Or.inl rfl
  rw [if_neg h2]
  by_cases h3 : (match data.result with
    | some r => r.corrected
    | none => "") = ""
  · rw [if_pos h3]
    exact Or.inl rfl
  rw [if_neg h3]
  refine Or.inr ⟨_, _, rfl, ?_⟩
  split
  · rfl
  · split <;> rfl

/-- Claim C6, counterexample: the pipeline assigns `data["result"] = result`
and returns `data` itself — the caller's segment object is mutated in
place, so after the call it no longer equals the original input. -/
theorem c6_counterexample :
    (translate_transcription ⟨"key", "en", ""⟩ ⟨false, 1, 2, some ⟨"hi", [], []⟩⟩
        ⟨[], none, none⟩ ⟨emptySession, none⟩ true none (fun _ => none)
        none).dataAfter
      ≠ ⟨false, 1, 2, some ⟨"hi", [], []⟩⟩ := by
  decide

/-- Claim C6 (amended): the pipeline returns the input segment updated in
place — the caller's object and the returned value coincide, only the
`result` field may differ from the input — and it performs no Transcript
Store writes: of the Redis state only the Keyword Store may change. -/
theorem c6_pipeline_frame (cfg : TransConfig) (data : Segment) (cached : TView)
    (kv : RedisKV) (sk : Bool) (corrO : Option LLMResponse)
    (transO : String → Option LLMResponse) (kwO : Option KwResp) :
    ((translate_transcription cfg data cached kv sk corrO transO kwO).kv.transcripts
        = kv.transcripts)
    ∧ ((translate_transcription cfg data cached kv sk corrO transO kwO).dataAfter
        = (translate_transcription cfg data cached kv sk corrO transO kwO).returned)
    ∧ ((translate_transcription cfg data cached kv sk corrO transO kwO).returned.isPart
        = data.isPart)
    ∧ ((translate_transcription cfg data cached kv sk corrO transO kwO).returned.start_time
        = data.start_time)
    ∧ ((translate_transcription cfg data cached kv sk corrO transO kwO).returned.end_time
        = data.end_time) := by
  rcases translate_cases cfg data cached kv sk corrO transO kwO with
    h | ⟨res, kv2, h, hkv⟩
  · rw [h]
    exact ⟨rfl, rfl, rfl, rfl, rfl⟩
  · rw [h]
    exact ⟨hkv, rfl, rfl, rfl, rfl⟩

/-- Looking up a key in an association list built by pairing each list
element with a function of it returns that function's value (for a key that
occurs in the list). -/
theorem lookup_map_pair (f : String → String) :
    ∀ (L : List String) (lang : String), lang ∈ L →
      List.lookup lang (L.map (fun l => (l, f l))) = some (f lang) := by
  intro L
  induction L with
  | nil => intro lang h; cases h
  | cons x xs ih =>
    intro lang h
    by_cases hx : lang = x
    · subst hx
      simp [List.lookup]
    · have h' : lang ∈ xs := by
        rcases List.mem_cons.mp h with h1 | h1
        · exact absurd h1 hx
        · exact h1
      have hb : (lang == x) = false := beq_false_of_ne hx
      simp [List.lookup, hb]
      exact ih lang h'

/-- The association list assembled from one translation worker per
language: its keys are exactly the languages, and a language whose oracle
call failed or returned non-200 maps to the corrected text. -/
theorem translated_assemble (corrected : String)
    (transO : String → Option LLMResponse) (L : List String) :
    ((L.map (fun lang => (lang, translation_worker corrected transO
        lang))).map Prod.fst = L)
    ∧ (∀ lang ∈ L, (∀ r, transO lang = some r → ¬ r.status = 200) →
        List.lookup lang (L.map (fun lang => (lang, translation_worker
          corrected transO lang))) = some corrected) := by
  constructor
  · rw [List.map_map]
    rw [show (Prod.fst ∘ fun lang =>
        (lang, translation_worker corrected transO lang)) = id from rfl]
    exact List.map_id L
  · intro lang hl hf
    have hw : translation_worker corrected transO lang = corrected := by
      unfold translation_worker
      cases ht : transO lang with
      | none => rfl
      | some r =>
        dsimp only
        rw [if_neg (hf r ht)]
    have h1 := lookup_map_pair
      (fun l => translation_worker corrected transO l) L lang hl
    simpa [hw] using h1

/-- Claim C7: once the pipeline reaches the translation stage (API key
present, at least one configured language, non-empty corrected text) on a
committed segment, the returned `result.translated` has exactly the
configured languages as keys (in order), and each language whose LLM call
failed or returned non-200 falls back to the corrected text. -/
theorem c7_translated_keys_and_fallback (cfg : TransConfig) (data : Segment)
    (cached : TView) (kv : RedisKV) (sk : Bool) (corrO : Option LLMResponse)
    (transO : String → Option LLMResponse) (kwO : Option KwResp)
    (hkey : ¬ cfg.openai_api_key = "")
    (hlang : ¬ splitCommaTrim cfg.translate_languages = [])
    (_hpart : data.isPart = false)
    (htext : ¬ (match data.result with
      | some r => r.corrected
      | none => "") = "") :
    ((translate_transcription cfg data cached kv sk corrO transO
          kwO).returned.result.map (fun r => r.translated.map Prod.fst)
        = some (splitCommaTrim cfg.translate_languages))
    ∧ (∀ lang ∈ splitCommaTrim cfg.translate_languages,
        (∀ r, transO lang = some r → ¬ r.status = 200) →
        ∃ res, (translate_transcription cfg data cached kv sk corrO transO
              kwO).returned.result = some res
          ∧ List.lookup lang res.translated = some res.corrected) := by
  simp only [translate_transcription]
  rw [if_neg hkey, if_neg hlang, if_neg htext]
  constructor
  · simpa using (translated_assemble _ transO
      (splitCommaTrim cfg.translate_languages)).1
  · intro lang hl hf
    exact ⟨_, rfl, by simpa using (translated_assemble _ transO
      (splitCommaTrim cfg.translate_languages)).2 lang hl hf⟩

/-- Claim C7, witness: `TRANSLATE_LANGUAGES="en,ja"`, committed segment with
corrected text "你好", every LLM call failing — "en" falls back to "你好". -/
theorem c7_witness :
    ∃ res, (translate_transcription ⟨"key", "en,ja", ""⟩
        ⟨false, 1, 2, some ⟨"你好", [], []⟩⟩ ⟨[], none, none⟩
        ⟨emptySession, none⟩ true none (fun _ => none) none).returned.result
      = some res ∧ List.lookup ("en") res.translated = some res.corrected := by
  have h := c7_translated_keys_and_fallback ⟨"key", "en,ja", ""⟩
    ⟨false, 1, 2, some ⟨"你好", [], []⟩⟩ ⟨[], none, none⟩ ⟨emptySession, none⟩
    true none (fun _ => none) none (by decide) (by decide) rfl (by decide)
  exact h.2 ("en") (by decide) (fun r hr => nomatch hr)

/-- `task.done() = false` means the registry holds a not-done task with that
id. -/
theorem taskDone_false_mem (st : TQMState) (tid : Nat)
    (h : taskDone st tid = false) :
    ∃ t ∈ st.tasks, t.tid = tid ∧ t.done = false := by
  unfold taskDone at h
  cases hf : st.tasks.find? (fun t => t.tid == tid) with
  | none => rw [hf] at h; cases h
  | some t =>
    rw [hf] at h
    refine ⟨t, List.mem_of_find?_eq_some hf, ?_, h⟩
    have := List.find?_some hf
    exact eq_of_beq this

/-- With pairwise-distinct ids, `find?` by id returns exactly the member
with that id. -/
theorem find_unique (l : List PTask) (t : PTask) (tid : Nat)
    (hp : l.Pairwise (fun a b => a.tid ≠ b.tid)) (hm : t ∈ l)
    (ht : t.tid = tid) : l.find? (fun x => x.tid == tid) = some t := by
  induction l with
  | nil => cases hm
  | cons x xs ih =>
    rcases List.pairwise_cons.mp hp with ⟨hx, hxs⟩
    rcases List.mem_cons.mp hm with h1 | h1
    · subst h1
      simp [List.find?, ht]
    · have hne : ¬ x.tid = tid := by
        intro hxe
        exact hx t h1 (by rw [hxe, ht])
      have hb : (x.tid == tid) = false := beq_eq_false_iff_ne.mpr hne
      simp [List.find?, hb]
      exact ih hxs h1

/-- Id-preserving task updates keep the ids pairwise distinct. -/
theorem pairwise_tid_map (f : PTask → PTask)
    (htid : ∀ t, (f t).tid = t.tid) (l : List PTask)
    (h : l.Pairwise (fun a b => a.tid ≠ b.tid)) :
    (l.map f).Pairwise (fun a b => a.tid ≠ b.tid) := by
  rw [List.pairwise_map]
  refine h.imp ?_
  intro a b hab
  rw [htid, htid]
  exact hab

/-- `cancelTask` and `finishTask` only toggle flags: ids are untouched. -/
theorem cancelTask_tid (tid : Nat) (t : PTask) :
    ((fun t => if t.tid == tid then { t with cancelRequested := true }
      else t) t).tid = t.tid := by
  by_cases h : t.tid = tid <;> simp [h]

theorem finishTask_tid (tid : Nat) (t : PTask) :
    ((fun t => if t.tid == tid then { t with done := true } else t) t).tid
      = t.tid := by
  by_cases h : t.tid = tid <;> simp [h]

/-- The invariant holds at a fresh manager. -/
theorem tqm_inv_init : TQMInv TQMinit := by
  refine ⟨?_, List.Pairwise.nil, ?_⟩
  · intro t ht
    exact absurd ht (List.not_mem_nil t)
  · intro t ht
    exact absurd ht (List.not_mem_nil t)

/-- Scheduler completion preserves the invariant. -/
theorem tqm_inv_finish (st : TQMState) (tid : Nat) (h : TQMInv st) :
    TQMInv (finishTask st tid) := by
  obtain ⟨h1, h2, h3⟩ := h
  refine ⟨?_, ?_, ?_⟩
  · intro t ht
    rcases List.mem_map.mp ht with ⟨u, hu, hut⟩
    have := h1 u hu
    rw [← hut]
    rw [finishTask_tid]
    exact this
  · exact pairwise_tid_map _ (finishTask_tid tid) _ h2
  · intro t ht hd hc
    rcases List.mem_map.mp ht with ⟨u, hu, hut⟩
    by_cases he : u.tid = tid
    · exfalso
      rw [← hut] at hd
      simp [he] at hd
    · have hut' : t = u := by rw [← hut]; simp [he]
      subst hut'
      exact h3 t hu hd hc

/-- Cancellation preserves the invariant. -/
theorem tqm_inv_cancel (st : TQMState) (tid : Nat) (h : TQMInv st) :
    TQMInv (cancelTask st tid) := by
  obtain ⟨h1, h2, h3⟩ := h
  refine ⟨?_, ?_, ?_⟩
  · intro t ht
    rcases List.mem_map.mp ht with ⟨u, hu, hut⟩
    have := h1 u hu
    rw [← hut]
    rw [cancelTask_tid]
    exact this
  · exact pairwise_tid_map _ (cancelTask_tid tid) _ h2
  · intro t ht hd hc
    rcases List.mem_map.mp ht with ⟨u, hu, hut⟩
    by_cases he : u.tid = tid
    · exfalso
      rw [← hut] at hc
      simp [he] at hc
    · have hut' : t = u := by rw [← hut]; simp [he]
      subst hut'
      exact h3 t hu hd hc

/-- After the cancel phase of `put`, no partial task is live: the tracked
one was just cancelled (or already done) and untracked ones never were
live. -/
theorem no_live_after_cancel (st : TQMState) (h : TQMInv st) :
    ∀ t ∈ (putCancelStage st).tasks, liveTask t = false := by
  obtain ⟨h1, h2, h3⟩ := h
  intro t ht
  by_contra hlive
  have hlive' : liveTask t = true := by
    cases hl : liveTask t
    · exact absurd hl hlive
    · rfl
  have hd : t.done = false := by
    unfold liveTask at hlive'
    cases hdd : t.done
    · rfl
    · rw [hdd] at hlive'; cases hlive'
  have hc : t.cancelRequested = false := by
    unfold liveTask at hlive'
    cases hcc : t.cancelRequested
    · rfl
    · rw [hcc] at hlive'
      rw [hd] at hlive'
      cases hlive'
  cases hp : st.partTask with
  | none =>
    have hst : putCancelStage st = st := by
      simp [putCancelStage, hp]
    rw [hst] at ht
    have htr := h3 t ht hd hc
    rw [hp] at htr
    cases htr
  | some tid =>
    by_cases hdone : taskDone st tid = true
    · have hst : putCancelStage st = st := by
        simp [putCancelStage, hp, hdone]
      rw [hst] at ht
      have htr := h3 t ht hd hc
      rw [hp] at htr
      have htid : t.tid = tid := (Option.some.inj htr).symm
      have hfind := find_unique st.tasks t tid h2 ht htid
      unfold taskDone at hdone
      simp only [hfind] at hdone
      rw [hd] at hdone
      cases hdone
    · have hdone' : taskDone st tid = false := by
        cases hdd : taskDone st tid
        · rfl
        · exact absurd hdd hdone
      have hst : putCancelStage st = cancelTask st tid := by
        simp [putCancelStage, hp, hdone']
      rw [hst] at ht
      rcases List.mem_map.mp ht with ⟨u, hu, hut⟩
      by_cases he : u.tid = tid
      · rw [← hut] at hc
        simp [he] at hc
      · have hut' : t = u := by rw [← hut]; simp [he]
        subst hut'
        have htr := h3 t hu hd hc
        rw [hp] at htr
        exact he (Option.some.inj htr).symm

/-- A live task is neither done nor cancel-requested. -/
theorem liveTask_eq (t : PTask) (h : liveTask t = true) :
    t.done = false ∧ t.cancelRequested = false := by
  unfold liveTask at h
  simp at h
  exact h

/-- The cancel phase preserves the invariant. -/
theorem tqm_inv_cancelStage (st : TQMState) (h : TQMInv st) :
    TQMInv (putCancelStage st) := by
  cases hp : st.partTask with
  | none => simpa [putCancelStage, hp] using h
  | some tid =>
    by_cases hd : taskDone st tid = true
    · simpa [putCancelStage, hp, hd] using h
    · have hd' : taskDone st tid = false := by
        cases hx : taskDone st tid
        · rfl
        · exact absurd hx hd
      have hst : putCancelStage st = cancelTask st tid := by
        simp [putCancelStage, hp, hd']
      rw [hst]
      exact tqm_inv_cancel st tid h

/-- The cancel phase only toggles flags: ids, tracked slot, queue and task
count are unchanged. -/
theorem putCancelStage_fields (st : TQMState) :
    (putCancelStage st).nextId = st.nextId
    ∧ (putCancelStage st).partTask = st.partTask
    ∧ (putCancelStage st).commit_queue = st.commit_queue
    ∧ (putCancelStage st).tasks.length = st.tasks.length := by
  cases hp : st.partTask with
  | none => simp [putCancelStage, hp]
  | some tid =>
    by_cases hd : taskDone st tid = true
    · simp [putCancelStage, hp, hd]
    · have hd' : taskDone st tid = false := by
        cases hx : taskDone st tid
        · rfl
        · exact absurd hx hd
      simp [putCancelStage, hp, hd', cancelTask]

/-- `put` preserves the invariant. -/
theorem tqm_inv_put (st : TQMState) (item : TQItem) (h : TQMInv st) :
    TQMInv (tqm_put st item) := by
  have hnone := no_live_after_cancel st h
  obtain ⟨s1, s2, s3⟩ := tqm_inv_cancelStage st h
  simp only [tqm_put]
  by_cases hip : item.seg.isPart = true
  · rw [if_pos hip]
    refine ⟨?_, ?_, ?_⟩
    · intro t ht
      rcases List.mem_append.mp ht with h1 | h1
      · exact Nat.lt_succ_of_lt (s1 t h1)
      · have hteq : t = ⟨(putCancelStage st).nextId, false, false⟩ := by
          simpa using h1
        rw [hteq]
        exact Nat.lt_succ_self _
    · rw [List.pairwise_append]
      refine ⟨s2, List.pairwise_singleton _ _, ?_⟩
      intro a ha b hb
      have hb' : b = ⟨(putCancelStage st).nextId, false, false⟩ := by
        simpa using hb
      have hlt := s1 a ha
      rw [hb']
      intro he
      rw [he] at hlt
      exact absurd hlt (lt_irrefl _)
    · intro t ht hd hc
      rcases List.mem_append.mp ht with h1 | h1
      · have := hnone t h1
        unfold liveTask at this
        rw [hd, hc] at this
        cases this
      · have hteq : t = ⟨(putCancelStage st).nextId, false, false⟩ := by
          simpa using h1
        rw [hteq]
  · rw [if_neg hip]
    exact ⟨s1, s2, fun t ht hd hc => s3 t ht hd hc⟩

/-- Every reachable manager state satisfies the invariant. -/
theorem tqm_reach_inv (st : TQMState) (h : TQMReach st) : TQMInv st := by
  induction h with
  | init => exact tqm_inv_init
  | put st item _hr ih => exact tqm_inv_put st item ih
  | finish st tid _hr ih => exact tqm_inv_finish st tid ih

/-- The invariant bounds the number of live partial tasks by one. -/
theorem tqm_live_le_one (st : TQMState) (h : TQMInv st) : liveCount st ≤ 1 := by
  obtain ⟨h1, h2, h3⟩ := h
  unfold liveCount
  cases hf : st.tasks.filter liveTask with
  | nil => simp
  | cons x xs =>
    cases xs with
    | nil => simp
    | cons y ys =>
      exfalso
      have hsub := List.filter_sublist (p := liveTask) st.tasks
      have hp := List.Pairwise.sublist hsub h2
      rw [hf] at hp
      have hxy : x.tid ≠ y.tid :=
        (List.pairwise_cons.mp hp).1 y (List.mem_cons_self y ys)
      have hx : x ∈ st.tasks.filter liveTask := by
        rw [hf]
        exact List.mem_cons_self x (y :: ys)
      have hy : y ∈ st.tasks.filter liveTask := by
        rw [hf]
        exact List.mem_cons_of_mem x (List.mem_cons_self y ys)
      rcases List.mem_filter.mp hx with ⟨hxm, hxl⟩
      rcases List.mem_filter.mp hy with ⟨hym, hyl⟩
      obtain ⟨hxd, hxc⟩ := liveTask_eq x hxl
      obtain ⟨hyd, hyc⟩ := liveTask_eq y hyl
      have t1 := h3 x hxm hxd hxc
      have t2 := h3 y hym hyd hyc
      rw [t1] at t2
      exact hxy (Option.some.inj t2)

/-- Claim C3: per session, at most one partial translation task is live at
any reachable moment; on every `put` (partial or committed) a tracked
not-done partial task is cancelled before the new item takes effect; a
partial item spawns a fresh partial task and is never enqueued, while a
committed item is appended to the FIFO commit queue. -/
theorem c3_put_cancels_and_routes :
    (∀ st, TQMReach st → liveCount st ≤ 1)
    ∧ (∀ st item tid, TQMReach st → st.partTask = some tid →
        taskDone st tid = false →
        ∀ t ∈ (tqm_put st item).tasks, t.tid = tid →
          t.cancelRequested = true)
    ∧ (∀ st item, item.seg.isPart = true →
        (tqm_put st item).commit_queue = st.commit_queue
        ∧ (tqm_put st item).partTask = some st.nextId
        ∧ (tqm_put st item).tasks.length = st.tasks.length + 1)
    ∧ (∀ st item, item.seg.isPart = false →
        (tqm_put st item).commit_queue = st.commit_queue ++ [item]
        ∧ (tqm_put st item).partTask = st.partTask
        ∧ (tqm_put st item).tasks.length = st.tasks.length) := by
  refine ⟨?_, ?_, ?_, ?_⟩
  · intro st hr
    exact tqm_live_le_one st (tqm_reach_inv st hr)
  · intro st item tid hr hp hdone t ht htid
    obtain ⟨h1, h2, h3⟩ := tqm_reach_inv st hr
    rcases taskDone_false_mem st tid hdone with ⟨u, hu, hut, _hud⟩
    have htlt : tid < st.nextId := by
      rw [← hut]
      exact h1 u hu
    have hst : putCancelStage st = cancelTask st tid := by
      simp [putCancelStage, hp, hdone]
    have hmap : ∀ t' ∈ (cancelTask st tid).tasks, t'.tid = tid →
        t'.cancelRequested = true := by
      intro t' ht' htid'
      rcases List.mem_map.mp ht' with ⟨u', hu', hut'⟩
      by_cases he : u'.tid = tid
      · rw [← hut']
        simp [he]
      · have hte : t' = u' := by rw [← hut']; simp [he]
        rw [hte] at htid'
        exact absurd htid' he
    simp only [tqm_put] at ht
    rw [hst] at ht
    by_cases hip : item.seg.isPart = true
    · rw [if_pos hip] at ht
      rcases List.mem_append.mp ht with h1' | h1'
      · exact hmap t h1' htid
      · have hteq : t = ⟨(cancelTask st tid).nextId, false, false⟩ := by
          simpa using h1'
        rw [hteq] at htid
        have hn : st.nextId = tid := htid
        rw [← hn] at htlt
        exact absurd htlt (lt_irrefl _)
    · rw [if_neg hip] at ht
      exact hmap t ht htid
  · intro st item hip
    have hf := putCancelStage_fields st
    simp only [tqm_put]
    rw [if_pos hip]
    refine ⟨hf.2.2.1, by rw [hf.1], ?_⟩
    rw [List.length_append, hf.2.2.2]
    rfl
  · intro st item hip
    have hf := putCancelStage_fields st
    simp only [tqm_put]
    rw [if_neg (by rw [hip]; intro hx; cases hx)]
    exact ⟨by rw [hf.2.2.1], hf.2.1, hf.2.2.2⟩

/-- Claim C3, witness: a partial put spawns task 0 without enqueueing; a
following committed put cancels the still-live task 0 and enqueues the
item. -/
theorem c3_witness :
    liveCount TQMinit ≤ 1
    ∧ (tqm_put TQMinit ⟨"s", segPart7⟩).commit_queue = []
    ∧ (tqm_put (tqm_put TQMinit ⟨"s", segPart7⟩)
        ⟨"s", seg5hello⟩).commit_queue = [⟨"s", seg5hello⟩]
    ∧ (⟨0, false, true⟩ : PTask).cancelRequested = true := by
  refine ⟨?_, ?_, ?_, ?_⟩
  · exact c3_put_cancels_and_routes.1 TQMinit TQMReach.init
  · exact (c3_put_cancels_and_routes.2.2.1 TQMinit ⟨"s", segPart7⟩
      (by decide)).1
  · have h := (c3_put_cancels_and_routes.2.2.2
      (tqm_put TQMinit ⟨"s", segPart7⟩) ⟨"s", seg5hello⟩ (by decide)).1
    rw [h]
    rfl
  · exact c3_put_cancels_and_routes.2.1 (tqm_put TQMinit ⟨"s", segPart7⟩)
      ⟨"s", seg5hello⟩ 0
      (TQMReach.put TQMinit ⟨"s", segPart7⟩ TQMReach.init)
      (by decide) (by decide) ⟨0, false, true⟩ (by decide) rfl

/-- Every scheduler step preserves the commit-lane invariant. -/
theorem driver_step_inv (q : List Nat) (s s' : DriverState)
    (h : DriverStep s s') (hi : DriverInv q s) : DriverInv q s' := by
  obtain ⟨i1, i2, i3⟩ := hi
  cases h with
  | pop i qq hq hin =>
    refine ⟨?_, i2, i3⟩
    have h1 := i1
    rw [hq, hin] at h1
    simpa [List.append_assoc] using h1
  | translated i hin =>
    refine ⟨?_, ?_, i3⟩
    · have h1 := i1
      rw [hin] at h1
      simpa [List.append_assoc] using h1
    · intro ib hib hb
      rcases List.mem_append.mp hib with h1 | h1
      · exact i2 ib h1 hb
      · have : ib = (i, false) := by simpa using h1
        rw [this] at hb
        cases hb
  | cbAppend i pre post hpend =>
    refine ⟨i1, ?_, ?_⟩
    · intro ib hib hb
      rcases List.mem_append.mp hib with h1 | h1
      · have : ib ∈ s.cbPending := by
          rw [hpend]
          exact List.mem_append_left _ h1
        exact List.mem_append_left _ (i2 ib this hb)
      · rcases List.mem_cons.mp h1 with h2 | h2
        · rw [h2]
          exact List.mem_append_right _ (List.mem_singleton.mpr rfl)
        · have : ib ∈ s.cbPending := by
            rw [hpend]
            exact List.mem_append_right _ (List.mem_cons_of_mem _ h2)
          exact List.mem_append_left _ (i2 ib this hb)
    · intro j hj
      exact List.mem_append_left _ (i3 j hj)
  | cbPublish i pre post hpend =>
    refine ⟨i1, ?_, ?_⟩
    · intro ib hib hb
      have : ib ∈ s.cbPending := by
        rw [hpend]
        rcases List.mem_append.mp hib with h1 | h1
        · exact List.mem_append_left _ h1
        · exact List.mem_append_right _ (List.mem_cons_of_mem _ h1)
      exact i2 ib this hb
    · intro j hj
      rcases List.mem_append.mp hj with h1 | h1
      · exact i3 j h1
      · have hji : j = i := by simpa using h1
        have : (i, true) ∈ s.cbPending := by
          rw [hpend]
          exact List.mem_append_right _ (List.mem_cons_self _ _)
        rw [hji]
        exact i2 (i, true) this rfl

/-- The commit-lane invariant holds in every state reachable from a fresh
driver. -/
theorem driver_reach_inv (q : List Nat) (s : DriverState)
    (h : DriverReach (driverInit q) s) : DriverInv q s := by
  unfold DriverReach at h
  induction h with
  | refl =>
    refine ⟨by simp [driverInit], ?_, ?_⟩
    · intro ib hib
      exact absurd hib (List.not_mem_nil ib)
    · intro j hj
      exact absurd hj (List.not_mem_nil j)
  | tail _h1 h2 ih => exact driver_step_inv q _ _ h2 ih

/-- The schedule in which each completion callback runs to completion
before the driver's next iteration: publishes happen in enqueue order. -/
theorem driver_seq (q : List Nat) : ∀ (sp app pub : List Nat),
    DriverReach ⟨q, none, sp, [], app, pub⟩
      ⟨[], none, sp ++ q, [], app ++ q, pub ++ q⟩ := by
  induction q with
  | nil =>
    intro sp app pub
    simpa using (Relation.ReflTransGen.refl :
      DriverReach ⟨[], none, sp, [], app, pub⟩ ⟨[], none, sp, [], app, pub⟩)
  | cons i q ih =>
    intro sp app pub
    have s1 : DriverStep ⟨i :: q, none, sp, [], app, pub⟩
        ⟨q, some i, sp, [], app, pub⟩ := DriverStep.pop _ i q rfl rfl
    have s2 : DriverStep ⟨q, some i, sp, [], app, pub⟩
        ⟨q, none, sp ++ [i], [(i, false)], app, pub⟩ :=
      DriverStep.translated _ i rfl
    have s3 : DriverStep ⟨q, none, sp ++ [i], [(i, false)], app, pub⟩
        ⟨q, none, sp ++ [i], [(i, true)], app ++ [i], pub⟩ :=
      DriverStep.cbAppend _ i [] [] rfl
    have s4 : DriverStep ⟨q, none, sp ++ [i], [(i, true)], app ++ [i], pub⟩
        ⟨q, none, sp ++ [i], [], app ++ [i], pub ++ [i]⟩ :=
      DriverStep.cbPublish _ i [] [] rfl
    have hrest := ih (sp ++ [i]) (app ++ [i]) (pub ++ [i])
    have hall := Relation.ReflTransGen.head s1
      (Relation.ReflTransGen.head s2
      (Relation.ReflTransGen.head s3
      (Relation.ReflTransGen.head s4 hrest)))
    simpa [List.append_assoc] using hall

/-- Claim C2, counterexample: with items 0 then 1 enqueued, the spawned
callbacks may interleave so that item 1 is appended and published before
item 0 — publish (and store-append) order [1, 0] differs from the enqueue
order [0, 1], even though the driver exited the items in order [0, 1]. -/
theorem c2_counterexample :
    DriverReach (driverInit [0, 1]) ⟨[], none, [0, 1], [], [1, 0], [1, 0]⟩
    ∧ ([1, 0] : List Nat) ≠ [0, 1] := by
  constructor
  · exact Relation.ReflTransGen.head (DriverStep.pop _ 0 [1] rfl rfl)
      (Relation.ReflTransGen.head (DriverStep.translated _ 0 rfl)
      (Relation.ReflTransGen.head (DriverStep.pop _ 1 [] rfl rfl)
      (Relation.ReflTransGen.head (DriverStep.translated _ 1 rfl)
      (Relation.ReflTransGen.head (DriverStep.cbAppend _ 1 [(0, false)] [] rfl)
      (Relation.ReflTransGen.head (DriverStep.cbPublish _ 1 [(0, false)] [] rfl)
      (Relation.ReflTransGen.head (DriverStep.cbAppend _ 0 [] [] rfl)
      (Relation.ReflTransGen.head (DriverStep.cbPublish _ 0 [] [] rfl)
      Relation.ReflTransGen.refl)))))))
  · decide

/-- Claim C2 (amended): committed items leave the driver loop one at a time
in exactly their enqueue order, and every segment is appended to the
Transcript Store before it is published; when each spawned completion
callback finishes before the next driver iteration, the publish order (and
store-append order) equals the enqueue order — but the callbacks run in
separately spawned tasks, so under other interleavings they may complete
out of enqueue order. -/
theorem c2_driver_order (q : List Nat) (s : DriverState)
    (h : DriverReach (driverInit q) s) :
    (s.spawnedCb ++ s.inFlight.toList ++ s.queue = q)
    ∧ s.inFlight.toList.length ≤ 1
    ∧ (∀ i ∈ s.published, i ∈ s.appended)
    ∧ DriverReach (driverInit q) ⟨[], none, q, [], q, q⟩ := by
  obtain ⟨i1, i2, i3⟩ := driver_reach_inv q s h
  refine ⟨i1, ?_, i3, ?_⟩
  · cases s.inFlight <;> simp
  · have hs := driver_seq q [] [] []
    simpa [driverInit] using hs

/-- Claim C2, witness at the singleton queue `[0]` in the initial state. -/
theorem c2_witness :
    ((driverInit [0]).spawnedCb ++ (driverInit [0]).inFlight.toList
        ++ (driverInit [0]).queue = [0])
    ∧ DriverReach (driverInit [0]) ⟨[], none, [0], [], [0], [0]⟩ := by
  have h := c2_driver_order [0] (driverInit [0]) Relation.ReflTransGen.refl
  exact ⟨h.1, h.2.2.2⟩
